import Mathlib

/-!
Verification of the Gatherraa fair-allocation engine and backend services.

The repository has two relevant layers:

* A Soroban (Rust) VRF lottery contract (`vrf.rs`, `commitment.rs`,
  `allocation.rs`, `entropy.rs`).  Only its documentation ships in this
  snapshot, so the contract operations are modelled from the specification
  text; every such definition carries a doc comment starting with
  `Modelled from the spec:`.
* A NestJS/TypeScript backend (`users.service.ts`, `stripe.service.ts`),
  whose source is present and embedded directly.

SHA-256 is modelled as an injective digest over byte strings (the usual
random-oracle style idealization of collision resistance): the digest of a
byte list is the natural number whose base-256 representation is the list
prefixed by a leading `1` digit.
-/

namespace Gatherraa

/-- Modelled from the spec: SHA-256 (`Hash`) over byte strings, idealized as an
injective digest.  Bytes are normalized modulo 256; the leading `1` digit makes
the base-256 encoding prefix-free, hence injective on byte lists. -/
def sha256 (l : List Nat) : Nat :=
  Nat.ofDigits 256 ((l.map (fun b => b % 256)).reverse ++ [1])

/-- A list is a byte string when every element is below 256. -/
def IsBytes (l : List Nat) : Prop := ∀ b ∈ l, b < 256

instance : DecidablePred IsBytes := fun l =>
  decidable_of_iff (∀ b ∈ l, b < 256) Iff.rfl

/-- Big-endian 4-byte encoding of a `u32` value (the ledger sequences and
nonces of the contract are `u32`). -/
def u32Bytes (n : Nat) : List Nat :=
  [n % 2 ^ 32 / 2 ^ 24, n % 2 ^ 32 / 2 ^ 16 % 256, n % 2 ^ 32 / 2 ^ 8 % 256,
    n % 2 ^ 32 % 256]

/-- Modelled from the spec: the `VRFProof` record
`{ output, proof_bytes, ledger_sequence, input_hash }` of `vrf.rs`
(the Rust source is absent from this snapshot). -/
structure VRFProof where
  output : Nat
  proof_bytes : List Nat
  ledger_sequence : Nat
  input_hash : Nat
deriving Repr, DecidableEq

/-- Modelled from the spec: the combined VRF pre-image
`participant_seed || entropy || sequence || nonce`. -/
def vrfInput (participant_seed entropy : List Nat) (sequence nonce : Nat) :
    List Nat :=
  participant_seed ++ entropy ++ u32Bytes sequence ++ u32Bytes nonce

/-- Modelled from the spec: `generate_vrf_randomness(participant_seed, entropy,
sequence, nonce)` of `vrf.rs` computes
`output = Hash(participant_seed || entropy || sequence || nonce)` and returns
the `VRFProof` carrying the output, the pre-image as proof bytes, the ledger
sequence, and a digest of the participant seed. -/
def generate_vrf_randomness (participant_seed entropy : List Nat)
    (sequence nonce : Nat) : VRFProof :=
  { output := sha256 (vrfInput participant_seed entropy sequence nonce)
    proof_bytes := vrfInput participant_seed entropy sequence nonce
    ledger_sequence := sequence
    input_hash := sha256 participant_seed }

/-- Modelled from the spec: `verify_vrf_proof(proof, original_input,
expected_sequence)` of `vrf.rs` recomputes the hash of the original input,
compares it with `proof.output`, and also checks
`proof.ledger_sequence == expected_sequence`; a pure boolean predicate. -/
def verify_vrf_proof (proof : VRFProof) (original_input : List Nat)
    (expected_sequence : Nat) : Bool :=
  decide (sha256 original_input = proof.output) &&
    decide (proof.ledger_sequence = expected_sequence)

/-- Modelled from the spec: the `RandomnessOutput` record
`{ value : u128, proof : VRFProof }`. -/
structure RandomnessOutput where
  value : Nat
  proof : VRFProof
deriving Repr, DecidableEq

/-- Modelled from the spec: `generate_batch_randomness(entropy, sequence,
count)` of `vrf.rs` invokes the single-value derivation `count` times with
nonces `0 .. count-1`; each wide `value` is the 128-bit reduction of the
32-byte output. -/
def generate_batch_randomness (participant_seed entropy : List Nat)
    (sequence count : Nat) : List RandomnessOutput :=
  (List.range count).map fun nonce =>
    let pf := generate_vrf_randomness participant_seed entropy sequence nonce
    { value := pf.output % 2 ^ 128, proof := pf }

/-- Modelled from the spec: the `Commitment` record of `commitment.rs`:
`{ participant_id, commitment_hash, created_at, revealed }` with
`commitment_hash = Hash(seed || nonce)`. -/
structure Commitment where
  participant_id : Nat
  commitment_hash : Nat
  created_at : Nat
  revealed : Bool
deriving Repr, DecidableEq

/-- Modelled from the spec: `reveal(participant_id, seed, nonce)` of
`commitment.rs` (source absent from the snapshot) recomputes
`Hash(seed || nonce)` and compares it with the stored `commitment_hash`;
on a match it marks that participant's commitment revealed, on a mismatch it
rejects the reveal and leaves the stored commitments untouched. -/
def reveal (commitments : List Commitment) (participant_id : Nat)
    (seed : List Nat) (nonce : Nat) : Bool × List Commitment :=
  match commitments.find? (fun c => c.participant_id == participant_id) with
  | none => (false, commitments)
  | some c =>
    if c.commitment_hash == sha256 (seed ++ u32Bytes nonce) then
      (true, commitments.map fun d =>
        if d.participant_id == participant_id then { d with revealed := true }
        else d)
    else (false, commitments)

/-- Modelled from the spec: the closed set of allocation strategies of
`allocation.rs`. -/
inductive AllocationStrategyType
  | FCFS
  | Lottery
  | Whitelist
  | HybridWhitelistLottery
  | TimeWeighted
deriving Repr, DecidableEq

/-- Modelled from the spec: a registered `LotteryEntry` (commitment state is
tracked separately by the commitment scheme above). -/
structure LotteryEntry where
  participant_id : String
  tier_id : Nat
  registered_at_sequence : Nat
deriving Repr, DecidableEq

/-- Modelled from the spec: the per-tier `AllocationConfig`. -/
structure AllocationConfig where
  tier_id : Nat
  strategy : AllocationStrategyType
  total_allocations : Nat
  finalization_sequence : Nat
  reveal_start_sequence : Nat
  reveal_end_sequence : Nat
  max_entries_per_participant : Nat
  minimum_lock_period : Nat
  rate_limit_window : Nat
deriving Repr, DecidableEq

/-- Modelled from the spec: the publicly queryable `AllocationResult`. -/
structure AllocationResult where
  tier_id : Nat
  participant_id : String
  rank : Nat
  is_winner : Bool
deriving Repr, DecidableEq

/-- Modelled from the spec: `compute_selection_index(randomness_value,
population_size)` reduces the wide randomness integer modulo the population
size. -/
def compute_selection_index (randomness_value population_size : Nat) : Nat :=
  randomness_value % population_size

/-- Modelled from the spec: the Lottery strategy draws one slot at a time with
`compute_selection_index` over the remaining unselected entries, removing the
selected entry before the next draw; each draw consumes one randomness value,
and running out of randomness values while entries remain is the
`InsufficientRandomness` failure (`none`). -/
def lotterySelect (remaining : List LotteryEntry) (rnd : List Nat) (k : Nat) :
    Option (List LotteryEntry) :=
  match k with
  | 0 => some []
  | Nat.succ k =>
    if h : 0 < remaining.length then
      match rnd with
      | [] => none
      | r :: rs =>
        let idx : Fin remaining.length :=
          ⟨compute_selection_index r remaining.length, Nat.mod_lt r h⟩
        (lotterySelect (remaining.eraseIdx idx.val) rs k).map
          (fun ws => remaining.get idx :: ws)
    else some []

/-- Modelled from the spec: the FirstComeFirstServed order — ascending
`registered_at_sequence`, ties broken by lexical order of `participant_id`. -/
def fcfsLE (a b : LotteryEntry) : Prop :=
  a.registered_at_sequence < b.registered_at_sequence ∨
    (a.registered_at_sequence = b.registered_at_sequence ∧
      a.participant_id ≤ b.participant_id)

instance : DecidableRel fcfsLE := fun a b => by
  unfold fcfsLE
  infer_instance

instance : IsTotal LotteryEntry fcfsLE := ⟨by
  intro a b
  rcases Nat.lt_trichotomy a.registered_at_sequence b.registered_at_sequence
    with h | h | h
  · exact Or.inl (Or.inl h)
  · rcases le_total a.participant_id b.participant_id with hp | hp
    · exact Or.inl (Or.inr ⟨h, hp⟩)
    · exact Or.inr (Or.inr ⟨h.symm, hp⟩)
  · exact Or.inr (Or.inl h)⟩

instance : IsTrans LotteryEntry fcfsLE := ⟨by
  intro a b c hab hbc
  rcases hab with h1 | ⟨e1, p1⟩ <;> rcases hbc with h2 | ⟨e2, p2⟩
  · exact Or.inl (h1.trans h2)
  · exact Or.inl (e2 ▸ h1)
  · exact Or.inl (e1.symm ▸ h2)
  · exact Or.inr ⟨e1.trans e2, p1.trans p2⟩⟩

/-- Modelled from the spec: FCFS winners are the first `total_allocations`
entries in FCFS order; the strategy consumes no randomness. -/
def fcfsOrder (entries : List LotteryEntry) : List LotteryEntry :=
  entries.insertionSort fcfsLE

def allocate_fcfs (entries : List LotteryEntry) (total_allocations : Nat) :
    List LotteryEntry :=
  (fcfsOrder entries).take total_allocations

/-- Modelled from the spec: the Whitelist strategy — allowlisted entries win
unconditionally up to `total_allocations`; excess allowlisted entries get no
fallback. -/
def allocate_whitelist (entries : List LotteryEntry) (allowlist : List String)
    (total_allocations : Nat) : List LotteryEntry :=
  (entries.filter (fun e => allowlist.contains e.participant_id)).take
    total_allocations

/-- Modelled from the spec: Hybrid — whitelist entries fill slots first,
remaining slots are filled via Lottery over the non-allowlisted pool. -/
def allocate_hybrid (entries : List LotteryEntry) (allowlist : List String)
    (rnd : List Nat) (total_allocations : Nat) : Option (List LotteryEntry) :=
  let wl := allocate_whitelist entries allowlist total_allocations
  (lotterySelect
      (entries.filter (fun e => !(allowlist.contains e.participant_id))) rnd
      (total_allocations - wl.length)).map
    (fun ws => wl ++ ws)

/-- First index whose cumulative weight exceeds the target (cumulative-weight
search for the TimeWeighted strategy). -/
def cumulativeIndex : List Nat → Nat → Nat
  | [], _ => 0
  | w :: ws, target =>
    if target < w then 0 else cumulativeIndex ws (target - w) + 1

/-- Modelled from the spec: a selection weight monotonically decreasing in
`registered_at_sequence` (earlier registration, larger weight). -/
def timeWeight (maxSeq : Nat) (e : LotteryEntry) : Nat :=
  maxSeq + 1 - e.registered_at_sequence

/-- Modelled from the spec: TimeWeighted — weighted sampling without
replacement, the drawn index located by cumulative-weight search driven by the
randomness value. -/
def timeWeightedSelect (maxSeq : Nat) :
    List LotteryEntry → List Nat → Nat → Option (List LotteryEntry)
  | _, _, 0 => some []
  | remaining, rnd, Nat.succ k =>
    if 0 < remaining.length then
      match rnd with
      | [] => none
      | r :: rs =>
        let weights := remaining.map (timeWeight maxSeq)
        let idx := cumulativeIndex weights (r % weights.sum)
        match remaining.get? idx with
        | none => none
        | some w =>
          (timeWeightedSelect maxSeq (remaining.eraseIdx idx) rs k).map
            (fun ws => w :: ws)
    else some []

def maxSeqOf (entries : List LotteryEntry) : Nat :=
  (entries.map (fun e => e.registered_at_sequence)).foldr max 0

/-- Modelled from the spec: the closed strategy dispatch
`allocate(entries, randomness, config)`; `none` models the
`InsufficientRandomness` failure. -/
def allocate (strategy : AllocationStrategyType) (entries : List LotteryEntry)
    (allowlist : List String) (rnd : List Nat) (total_allocations : Nat) :
    Option (List LotteryEntry) :=
  match strategy with
  | .FCFS => some (allocate_fcfs entries total_allocations)
  | .Lottery => lotterySelect entries rnd total_allocations
  | .Whitelist => some (allocate_whitelist entries allowlist total_allocations)
  | .HybridWhitelistLottery =>
    allocate_hybrid entries allowlist rnd total_allocations
  | .TimeWeighted =>
    timeWeightedSelect (maxSeqOf entries) entries rnd total_allocations

/-- Modelled from the spec: the one-directional per-tier lifecycle. -/
inductive TierStatus
  | Open
  | Locked
  | Allocated
  | Finalized
deriving Repr, DecidableEq

/-- Modelled from the spec: the error taxonomy of §7. -/
inductive LotteryError
  | EntropyNotReady
  | InvalidState
  | DuplicateEntry
  | RateLimited
  | CommitmentMismatch
  | AlreadyAllocated
  | InsufficientRandomness
deriving Repr, DecidableEq

/-- Modelled from the spec: the mutable per-tier state owned by the engine. -/
structure TierState where
  status : TierStatus
  config : AllocationConfig
  entries : List LotteryEntry
  randomness : List RandomnessOutput
  results : List AllocationResult
deriving Repr, DecidableEq

def get_winners (st : TierState) : List AllocationResult := st.results

/-- Modelled from the spec: `execute_allocation(tier, randomness_values)` —
write-once (`AlreadyAllocated` once the tier is `Allocated`/`Finalized`),
rejected before `finalization_sequence + minimum_lock_period`
(`InvalidState`), otherwise runs the configured strategy, stores the results
and moves the tier to `Allocated`; every failing call is a no-op on state. -/
def execute_allocation (st : TierState) (current_sequence : Nat)
    (allowlist : List String) (randomness_values : List Nat) :
    Except LotteryError (List AllocationResult) × TierState :=
  match st.status with
  | .Allocated => (.error .AlreadyAllocated, st)
  | .Finalized => (.error .AlreadyAllocated, st)
  | _ =>
    if current_sequence <
        st.config.finalization_sequence + st.config.minimum_lock_period then
      (.error .InvalidState, st)
    else
      match allocate st.config.strategy st.entries allowlist randomness_values
          st.config.total_allocations with
      | none => (.error .InsufficientRandomness, st)
      | some ws =>
        let results := ws.enum.map fun p =>
          { tier_id := st.config.tier_id
            participant_id := p.2.participant_id
            rank := p.1
            is_winner := true : AllocationResult }
        (.ok results, { st with status := .Allocated, results := results })

/-- Modelled from the spec: `generate_lottery_randomness(tier, batch_size)` —
write-once after the tier is `Allocated`/`Finalized`, fails with
`EntropyNotReady` before the finalization sequence, otherwise derives the
batch from the tier seed and stores it; failing calls are no-ops on state. -/
def generate_lottery_randomness (st : TierState) (current_sequence : Nat)
    (entropy : List Nat) (batch_size : Nat) :
    Except LotteryError (List RandomnessOutput) × TierState :=
  match st.status with
  | .Allocated => (.error .AlreadyAllocated, st)
  | .Finalized => (.error .AlreadyAllocated, st)
  | _ =>
    if current_sequence < st.config.finalization_sequence then
      (.error .EntropyNotReady, st)
    else
      let outs := generate_batch_randomness (u32Bytes st.config.tier_id)
        entropy current_sequence batch_size
      (.ok outs, { st with status := .Locked, randomness := outs })

/-- Modelled from the spec: the tagged entropy source variants of
`entropy.rs`. -/
inductive EntropySource
  | LedgerHeaderHash (hash : List Nat)
  | LedgerHeaderHashWithTimestamp (hash : List Nat) (timestamp : Nat)
  | MultiSource (hash : List Nat) (timestamp : Nat) (sequence : Nat)
      (counter : Nat)
deriving Repr, DecidableEq

/-- Modelled from the spec: the Entropy Manager's internal monotonic
counter. -/
structure EntropyState where
  counter : Nat
deriving Repr, DecidableEq

/-- The 32-byte little-endian base-256 expansion of a digest. -/
def natToBytes32 (n : Nat) : List Nat :=
  (List.range 32).map fun i => n / 256 ^ i % 256

/-- Modelled from the spec: the 32-byte value yielded by an entropy source;
`MultiSource` combines hash, timestamp, sequence and the internal counter
(xor-folded) before hashing, decorrelating calls within one sequence. -/
def entropyValue (source : EntropySource) (internal_counter : Nat) :
    List Nat :=
  match source with
  | .LedgerHeaderHash h => natToBytes32 (sha256 h)
  | .LedgerHeaderHashWithTimestamp h t => natToBytes32 (sha256 (h ++ u32Bytes t))
  | .MultiSource h t s c =>
    natToBytes32
      (sha256 (natToBytes32 (sha256 h ^^^ t ^^^ s ^^^ (c + internal_counter))))

/-- Modelled from the spec: `get_entropy(source)` of `entropy.rs` fails with
the retriable `EntropyNotReady` while the current ledger sequence is before
the round's finalization sequence; at/after it, it returns the 32-byte value
and bumps the internal counter.  A failing call is a no-op on state. -/
def get_entropy (st : EntropyState) (source : EntropySource)
    (current_sequence finalization_sequence : Nat) :
    Except LotteryError (List Nat) × EntropyState :=
  if current_sequence < finalization_sequence then
    (.error .EntropyNotReady, st)
  else
    (.ok (entropyValue source st.counter), { st with counter := st.counter + 1 })

/-- Concrete locked tier used to exercise the allocation lifecycle. -/
def tierLockedW : TierState :=
  ⟨.Locked, ⟨1, .FCFS, 1, 0, 0, 0, 1, 0, 0⟩, [⟨"A", 1, 10⟩], [], []⟩

/-- The results produced by allocating `tierLockedW`. -/
def resultsW : List AllocationResult := [⟨1, "A", 0, true⟩]

/-- The tier state after allocating `tierLockedW`. -/
def tierAllocatedW : TierState :=
  ⟨.Allocated, ⟨1, .FCFS, 1, 0, 0, 0, 1, 0, 0⟩, [⟨"A", 1, 10⟩], [], resultsW⟩

/-- The `UserRole` values referenced by `users.service.ts` and
`users.controller.ts`. -/
inductive UserRole
  | admin
  | organizer
  | attendee
deriving Repr, DecidableEq

/-- The `User` entity fields used by `users.service.ts`; the SIWE nonce
column is `string | null`. -/
structure User where
  id : String
  walletAddress : String
  nonce : Option String
  lastLoginAt : Option Nat
  roles : List UserRole
deriving Repr, DecidableEq

/-- `UsersService.findOneByWallet`: the first stored user whose
`walletAddress` matches. -/
def findOneByWallet (db : List User) (walletAddress : String) : Option User :=
  db.find? (fun u => u.walletAddress == walletAddress)

/-- `UsersService.validateNonce` (users.service.ts, lines 116-131): returns
false when the user is missing or the stored nonce is null or the empty
string (the JavaScript `!user.nonce` truthiness check); otherwise compares
the stored nonce with the supplied one, and on success clears the nonce and
stamps `lastLoginAt` before saving the user (keyed by id). -/
def validateNonce (db : List User) (walletAddress nonce : String)
    (now : Nat) : Bool × List User :=
  match db.find? (fun u => u.walletAddress == walletAddress) with
  | none => (false, db)
  | some user =>
    match user.nonce with
    | none => (false, db)
    | some stored =>
      if stored = "" then (false, db)
      else if stored = nonce then
        (true, db.map fun u =>
          if u.id == user.id then
            { u with nonce := none, lastLoginAt := some now }
          else u)
      else (false, db)

/-- `UsersService.assignRole` (users.service.ts, lines 184-193): looks the
user up by id (`NotFoundException` modelled as `Except.error ()`), pushes the
role only when it is absent and saves; when the role is already held the
user is returned unchanged without saving. -/
def assignRole (db : List User) (userId : String) (role : UserRole) :
    Except Unit (User × List User) :=
  match db.find? (fun u => u.id == userId) with
  | none => .error ()
  | some user =>
    if role ∈ user.roles then .ok (user, db)
    else
      .ok ({ user with roles := user.roles ++ [role] },
        db.map fun u =>
          if u.id == userId then { user with roles := user.roles ++ [role] }
          else u)

/-- `StripeService.verifyWebhookSignature` (stripe.service.ts, lines
236-247): `stripe.webhooks.constructEvent(body, signature, secret)` is the
external Stripe SDK call, modelled as an arbitrary function that either
returns an event or throws (`Except.error`); the service returns true on
success and catches every exception, returning false. -/
def verifyWebhookSignature
    (constructEvent : String → String → String → Except String String)
    (webhookSecret body signature : String) : Bool :=
  match constructEvent body signature webhookSecret with
  | .ok _ => true
  | .error _ => false

theorem sha256_eq_iff {l1 l2 : List Nat} :
    sha256 l1 = sha256 l2 ↔
      l1.map (fun b => b % 256) = l2.map (fun b => b % 256) := by
  constructor
  · intro h
    have key : ∀ l : List Nat,
        Nat.digits 256 (sha256 l) = (l.map (fun b => b % 256)).reverse ++ [1] := by
      intro l
      refine Nat.digits_ofDigits 256 (by norm_num) _ ?_ ?_
      · intro x hx
        rcases List.mem_append.1 hx with hx | hx
        · rcases List.mem_reverse.1 hx with hx
          rcases List.mem_map.1 hx with ⟨b, _, rfl⟩
          exact Nat.mod_lt b (by norm_num)
        · simp only [List.mem_singleton] at hx
          omega
      · intro hne
        rw [List.getLast_append]
        norm_num
    have h2 := (key l1).symm.trans ((congrArg (Nat.digits 256) h).trans (key l2))
    have h3 := congrArg List.reverse h2
    simp only [List.reverse_append, List.reverse_reverse, List.reverse_cons,
      List.reverse_nil, List.nil_append, List.singleton_append, List.cons.injEq] at h3
    exact h3.2
  · intro h
    unfold sha256
    rw [h]

theorem sha256_injOn {l1 l2 : List Nat} (h1 : IsBytes l1) (h2 : IsBytes l2)
    (h : sha256 l1 = sha256 l2) : l1 = l2 := by
  have hm := sha256_eq_iff.1 h
  have e1 : l1.map (fun b => b % 256) = l1 := by
    rw [List.map_congr_left (fun b hb => Nat.mod_eq_of_lt (h1 b hb))]
    exact List.map_id l1
  have e2 : l2.map (fun b => b % 256) = l2 := by
    rw [List.map_congr_left (fun b hb => Nat.mod_eq_of_lt (h2 b hb))]
    exact List.map_id l2
  rw [e1, e2] at hm
  exact hm

theorem u32Bytes_isBytes (n : Nat) : IsBytes (u32Bytes n) := by
  have h32 : n % 2 ^ 32 < 2 ^ 32 := Nat.mod_lt n (by norm_num)
  intro b hb
  simp only [u32Bytes, List.mem_cons, List.not_mem_nil, or_false] at hb
  rcases hb with rfl | rfl | rfl | rfl
  · omega
  · exact Nat.mod_lt _ (by norm_num)
  · exact Nat.mod_lt _ (by norm_num)
  · exact Nat.mod_lt _ (by norm_num)

theorem u32Bytes_injOn {m n : Nat} (hm : m < 2 ^ 32) (hn : n < 2 ^ 32)
    (h : u32Bytes m = u32Bytes n) : m = n := by
  simp only [u32Bytes, Nat.mod_eq_of_lt hm, Nat.mod_eq_of_lt hn,
    List.cons.injEq, and_true] at h
  omega

theorem vrfInput_isBytes {ps e : List Nat} (hps : IsBytes ps) (he : IsBytes e)
    (s n : Nat) : IsBytes (vrfInput ps e s n) := by
  intro b hb
  simp only [vrfInput, List.append_assoc, List.mem_append] at hb
  rcases hb with hb | hb | hb | hb
  · exact hps b hb
  · exact he b hb
  · exact u32Bytes_isBytes s b hb
  · exact u32Bytes_isBytes n b hb

/-- C1: `generate_vrf_randomness` returns the `VRFProof` whose output is
`Hash(participant_seed || entropy || sequence || nonce)`, and any two calls
with the identical four inputs return the identical output and proof. -/
theorem generate_vrf_randomness_deterministic_hash (ps e : List Nat)
    (s n : Nat) :
    (generate_vrf_randomness ps e s n).output
        = sha256 (ps ++ e ++ u32Bytes s ++ u32Bytes n) ∧
      ∀ ps2 e2 s2 n2, ps2 = ps → e2 = e → s2 = s → n2 = n →
        generate_vrf_randomness ps2 e2 s2 n2 = generate_vrf_randomness ps e s n := by
  refine ⟨rfl, ?_⟩
  rintro ps2 e2 s2 n2 rfl rfl rfl rfl
  rfl

theorem generate_vrf_randomness_deterministic_hash_witness :
    (generate_vrf_randomness [1] [2] 3 4).output
        = sha256 ([1] ++ [2] ++ u32Bytes 3 ++ u32Bytes 4) ∧
      generate_vrf_randomness [1] [2] 3 4 = generate_vrf_randomness [1] [2] 3 4 :=
  ⟨(generate_vrf_randomness_deterministic_hash [1] [2] 3 4).1,
    (generate_vrf_randomness_deterministic_hash [1] [2] 3 4).2 [1] [2] 3 4
      rfl rfl rfl rfl⟩

/-- C2: every `RandomnessOutput` of `generate_batch_randomness` verifies
against its own original input and generation sequence; any tampered (byte
string) input and any expected sequence different from the proof's ledger
sequence make `verify_vrf_proof` return false; and verification is a total
pure predicate returning a boolean on every input. -/
theorem verify_vrf_proof_sound (ps e : List Nat) (hps : IsBytes ps)
    (he : IsBytes e) (s count : Nat) :
    (∀ ro ∈ generate_batch_randomness ps e s count,
        verify_vrf_proof ro.proof ro.proof.proof_bytes s = true) ∧
      (∀ ro ∈ generate_batch_randomness ps e s count, ∀ tampered : List Nat,
        IsBytes tampered → tampered ≠ ro.proof.proof_bytes →
        verify_vrf_proof ro.proof tampered s = false) ∧
      (∀ (proof : VRFProof) (input : List Nat) (s2 : Nat),
        proof.ledger_sequence ≠ s2 → verify_vrf_proof proof input s2 = false) ∧
      (∀ (proof : VRFProof) (input : List Nat) (s2 : Nat),
        verify_vrf_proof proof input s2 = true ∨
          verify_vrf_proof proof input s2 = false) := by
  refine ⟨?_, ?_, ?_, ?_⟩
  · intro ro hro
    simp only [generate_batch_randomness, List.mem_map, List.mem_range] at hro
    obtain ⟨nonce, -, rfl⟩ := hro
    simp [verify_vrf_proof, generate_vrf_randomness]
  · intro ro hro tampered htb hne
    simp only [generate_batch_randomness, List.mem_map, List.mem_range] at hro
    obtain ⟨nonce, -, rfl⟩ := hro
    have hout : sha256 tampered ≠
        (generate_vrf_randomness ps e s nonce).output := by
      intro hcol
      exact hne (sha256_injOn htb (vrfInput_isBytes hps he s nonce) hcol)
    simp [verify_vrf_proof, hout]
  · intro proof input s2 hne
    simp only [verify_vrf_proof, Bool.and_eq_false_iff, decide_eq_false_iff_not]
    exact Or.inr hne
  · intro proof input s2
    rcases Bool.eq_false_or_eq_true (verify_vrf_proof proof input s2) with h | h
    · exact Or.inl h
    · exact Or.inr h

theorem verify_vrf_proof_sound_witness :
    (∀ ro ∈ generate_batch_randomness [1] [2] 3 2,
        verify_vrf_proof ro.proof ro.proof.proof_bytes 3 = true) ∧
      (∀ ro ∈ generate_batch_randomness [1] [2] 3 2, ∀ tampered : List Nat,
        IsBytes tampered → tampered ≠ ro.proof.proof_bytes →
        verify_vrf_proof ro.proof tampered 3 = false) ∧
      (∀ (proof : VRFProof) (input : List Nat) (s2 : Nat),
        proof.ledger_sequence ≠ s2 → verify_vrf_proof proof input s2 = false) ∧
      (∀ (proof : VRFProof) (input : List Nat) (s2 : Nat),
        verify_vrf_proof proof input s2 = true ∨
          verify_vrf_proof proof input s2 = false) :=
  verify_vrf_proof_sound [1] [2] (by decide) (by decide) 3 2

theorem find?_commitment_of_mem {cs : List Commitment} {pid : Nat}
    {c : Commitment} (hnd : (cs.map (fun d => d.participant_id)).Nodup)
    (hc : c ∈ cs) (hpid : c.participant_id = pid) :
    cs.find? (fun d => d.participant_id == pid) = some c := by
  induction cs with
  | nil => cases hc
  | cons d rest ih =>
    rw [List.map_cons, List.nodup_cons] at hnd
    rcases List.mem_cons.1 hc with rfl | hmem
    · exact List.find?_cons_of_pos _ (by simp [hpid])
    · have hd : ¬(d.participant_id == pid) = true := by
        simp only [beq_iff_eq]
        intro hdp
        exact hnd.1 (hdp ▸ List.mem_map.2 ⟨c, hmem, hpid⟩)
      have hstep : List.find? (fun x => x.participant_id == pid) (d :: rest)
          = List.find? (fun x => x.participant_id == pid) rest :=
        List.find?_cons_of_neg _ hd
      rw [hstep]
      exact ih hnd.2 hmem

/-- C3: for a participant with a stored commitment, `reveal` succeeds iff
`Hash(seed || nonce)` equals the stored commitment hash; a failed reveal
leaves the stored commitments exactly as they were (the participant stays
committed-unrevealed), and no other participant's commitment is modified by
any reveal. -/
theorem reveal_binding (cs : List Commitment) (pid : Nat) (seed : List Nat)
    (nonce : Nat) (hnd : (cs.map (fun d => d.participant_id)).Nodup)
    (c : Commitment) (hc : c ∈ cs) (hpid : c.participant_id = pid) :
    ((reveal cs pid seed nonce).1 = true ↔
        c.commitment_hash = sha256 (seed ++ u32Bytes nonce)) ∧
      ((reveal cs pid seed nonce).1 = false → (reveal cs pid seed nonce).2 = cs) ∧
      (∀ d ∈ (reveal cs pid seed nonce).2, d.participant_id ≠ pid → d ∈ cs) := by
  have hfind := find?_commitment_of_mem hnd hc hpid
  by_cases hmatch : c.commitment_hash = sha256 (seed ++ u32Bytes nonce)
  · refine ⟨by simp [reveal, hfind, hmatch], by simp [reveal, hfind, hmatch], ?_⟩
    intro d hd hne
    simp only [reveal, hfind, hmatch, beq_self_eq_true, if_true,
      List.mem_map] at hd
    obtain ⟨orig, horig, rfl⟩ := hd
    by_cases ho : (orig.participant_id == pid) = true
    · exfalso
      apply hne
      simp only [ho, if_true]
      exact beq_iff_eq.1 ho
    · simpa [ho] using horig
  · refine ⟨by simp [reveal, hfind, hmatch], by simp [reveal, hfind, hmatch], ?_⟩
    intro d hd _
    simpa [reveal, hfind, hmatch] using hd

theorem reveal_binding_witness :
    (((reveal [⟨1, sha256 ([5] ++ u32Bytes 7), 0, false⟩] 1 [5] 7).1 = true ↔
        (⟨1, sha256 ([5] ++ u32Bytes 7), 0, false⟩ : Commitment).commitment_hash
          = sha256 ([5] ++ u32Bytes 7)) ∧
      ((reveal [⟨1, sha256 ([5] ++ u32Bytes 7), 0, false⟩] 1 [5] 7).1 = false →
        (reveal [⟨1, sha256 ([5] ++ u32Bytes 7), 0, false⟩] 1 [5] 7).2
          = [⟨1, sha256 ([5] ++ u32Bytes 7), 0, false⟩]) ∧
      (∀ d ∈ (reveal [⟨1, sha256 ([5] ++ u32Bytes 7), 0, false⟩] 1 [5] 7).2,
        d.participant_id ≠ 1 → d ∈ [⟨1, sha256 ([5] ++ u32Bytes 7), 0, false⟩])) :=
  reveal_binding [⟨1, sha256 ([5] ++ u32Bytes 7), 0, false⟩] 1 [5] 7
    (by simp) ⟨1, sha256 ([5] ++ u32Bytes 7), 0, false⟩ (by simp) rfl

theorem natToBytes32_length (n : Nat) : (natToBytes32 n).length = 32 := by
  simp [natToBytes32]

theorem entropyValue_length (source : EntropySource) (c : Nat) :
    (entropyValue source c).length = 32 := by
  cases source <;> simp [entropyValue, natToBytes32_length]

/-- C5: `get_entropy` called while the current ledger sequence is before the
round's `finalization_sequence` fails with `EntropyNotReady` without touching
state; called at or after `finalization_sequence` it succeeds and returns a
32-byte entropy value. -/
theorem get_entropy_boundary (st : EntropyState) (source : EntropySource)
    (current_sequence finalization_sequence : Nat) :
    (current_sequence < finalization_sequence →
        get_entropy st source current_sequence finalization_sequence
          = (.error .EntropyNotReady, st)) ∧
      (finalization_sequence ≤ current_sequence →
        ∃ v st2, get_entropy st source current_sequence finalization_sequence
            = (.ok v, st2) ∧ v.length = 32) := by
  constructor
  · intro h
    simp [get_entropy, h]
  · intro h
    refine ⟨entropyValue source st.counter, { st with counter := st.counter + 1 },
      ?_, entropyValue_length source st.counter⟩
    simp [get_entropy, Nat.not_lt.2 h]

theorem get_entropy_boundary_witness :
    get_entropy ⟨0⟩ (.LedgerHeaderHash [9]) 1 2
        = (.error .EntropyNotReady, ⟨0⟩) ∧
      ∃ v st2, get_entropy ⟨0⟩ (.LedgerHeaderHash [9]) 3 2 = (.ok v, st2) ∧
        v.length = 32 :=
  ⟨(get_entropy_boundary ⟨0⟩ (.LedgerHeaderHash [9]) 1 2).1 (by decide),
    (get_entropy_boundary ⟨0⟩ (.LedgerHeaderHash [9]) 3 2).2 (by decide)⟩

theorem execute_allocation_of_allocated {st : TierState}
    (h : st.status = .Allocated) (seq : Nat) (al : List String)
    (rv : List Nat) :
    execute_allocation st seq al rv = (.error .AlreadyAllocated, st) := by
  unfold execute_allocation
  rw [h]

theorem generate_lottery_randomness_of_allocated {st : TierState}
    (h : st.status = .Allocated) (cur : Nat) (ent : List Nat) (bs : Nat) :
    generate_lottery_randomness st cur ent bs
      = (.error .AlreadyAllocated, st) := by
  unfold generate_lottery_randomness
  rw [h]

theorem execute_allocation_ok_state {st : TierState} {seq : Nat}
    {al : List String} {rv : List Nat} {res : List AllocationResult}
    {st2 : TierState}
    (h : execute_allocation st seq al rv = (.ok res, st2)) :
    st2.status = .Allocated ∧ st2.results = res := by
  unfold execute_allocation at h
  split at h
  · simp at h
  · simp at h
  · split at h
    · simp at h
    · split at h
      · simp at h
      · simp only [Prod.mk.injEq, Except.ok.injEq] at h
        obtain ⟨rfl, rfl⟩ := h
        exact ⟨rfl, rfl⟩

/-- C4: once `execute_allocation` has completed for a tier, a second call
fails with `AlreadyAllocated` and leaves the stored results untouched, so
`get_winners` returns the identical list before and after the failed second
attempt; re-invoking `generate_lottery_randomness` on the allocated tier
fails the same way. -/
theorem execute_allocation_write_once (st : TierState) (seq1 seq2 : Nat)
    (al1 al2 : List String) (rv1 rv2 : List Nat)
    (res : List AllocationResult) (st2 : TierState)
    (h : execute_allocation st seq1 al1 rv1 = (.ok res, st2)) :
    execute_allocation st2 seq2 al2 rv2 = (.error .AlreadyAllocated, st2) ∧
      get_winners st2 = res ∧
      get_winners (execute_allocation st2 seq2 al2 rv2).2 = get_winners st2 ∧
      ∀ cur ent bs, generate_lottery_randomness st2 cur ent bs
        = (.error .AlreadyAllocated, st2) := by
  obtain ⟨hstatus, hres⟩ := execute_allocation_ok_state h
  have hsecond := execute_allocation_of_allocated hstatus seq2 al2 rv2
  refine ⟨hsecond, hres, ?_, fun cur ent bs =>
    generate_lottery_randomness_of_allocated hstatus cur ent bs⟩
  rw [hsecond]

theorem execute_allocation_write_once_witness :
    execute_allocation tierAllocatedW 6 [] []
        = (.error .AlreadyAllocated, tierAllocatedW) ∧
      get_winners tierAllocatedW = resultsW ∧
      get_winners (execute_allocation tierAllocatedW 6 [] []).2
        = get_winners tierAllocatedW ∧
      ∀ cur ent bs, generate_lottery_randomness tierAllocatedW cur ent bs
        = (.error .AlreadyAllocated, tierAllocatedW) :=
  execute_allocation_write_once tierLockedW 5 6 [] [] [] [] resultsW
    tierAllocatedW rfl

theorem lotterySelect_zero (remaining : List LotteryEntry) (rnd : List Nat) :
    lotterySelect remaining rnd 0 = some [] := by
  simp [lotterySelect]

theorem lotterySelect_success :
    ∀ (k : Nat) (remaining : List LotteryEntry) (rnd : List Nat),
      k ≤ remaining.length → k ≤ rnd.length →
      ∃ ws, lotterySelect remaining rnd k = some ws ∧ ws.length = k ∧
        (∀ w ∈ ws, w ∈ remaining) ∧ (remaining.Nodup → ws.Nodup) := by
  intro k
  induction k with
  | zero =>
    intro remaining rnd _ _
    exact ⟨[], lotterySelect_zero remaining rnd, rfl, by simp,
      fun _ => List.nodup_nil⟩
  | succ k ih =>
    intro remaining rnd hk hr
    have hpos : 0 < remaining.length := Nat.lt_of_lt_of_le (Nat.succ_pos k) hk
    match rnd, hr with
    | r :: rs, hr =>
      have hidx : compute_selection_index r remaining.length < remaining.length :=
        Nat.mod_lt r hpos
      have hklen : k ≤ (remaining.eraseIdx (compute_selection_index r
          remaining.length)).length := by
        rw [List.length_eraseIdx]
        simp only [hidx, if_true]
        omega
      have hkrs : k ≤ rs.length := Nat.le_of_succ_le_succ hr
      obtain ⟨ws, hws, hlen, hsub, hnd⟩ :=
        ih (remaining.eraseIdx (compute_selection_index r remaining.length)) rs
          hklen hkrs
      refine ⟨remaining.get ⟨compute_selection_index r remaining.length, hidx⟩
        :: ws, ?_, by simp [hlen], ?_, ?_⟩
      · simp only [lotterySelect, hpos, dif_pos, hws]
        rfl
      · intro w hw
        rcases List.mem_cons.1 hw with rfl | hw
        · exact List.get_mem remaining _ hidx
        · exact (List.eraseIdx_sublist remaining _).mem (hsub w hw)
      · intro hnod
        have hnd2 : ws.Nodup :=
          hnd ((List.eraseIdx_sublist remaining _).nodup hnod)
        refine List.nodup_cons.2 ⟨?_, hnd2⟩
        intro hmem
        have hget : remaining.get ⟨compute_selection_index r remaining.length,
            hidx⟩ ∈ remaining.eraseIdx (compute_selection_index r
            remaining.length) := hsub _ hmem
        rw [← hnod.erase_getElem (compute_selection_index r remaining.length)
          hidx] at hget
        exact hnod.not_mem_erase (by simpa using hget)

theorem lotterySelect_insufficient :
    ∀ (k : Nat) (remaining : List LotteryEntry) (rnd : List Nat),
      k ≤ remaining.length → rnd.length < k →
      lotterySelect remaining rnd k = none := by
  intro k
  induction k with
  | zero =>
    intro remaining rnd _ h
    omega
  | succ k ih =>
    intro remaining rnd hk hr
    have hpos : 0 < remaining.length := Nat.lt_of_lt_of_le (Nat.succ_pos k) hk
    match rnd with
    | [] => simp [lotterySelect, hpos]
    | r :: rs =>
      have hidx : compute_selection_index r remaining.length < remaining.length :=
        Nat.mod_lt r hpos
      have hklen : k ≤ (remaining.eraseIdx (compute_selection_index r
          remaining.length)).length := by
        rw [List.length_eraseIdx]
        simp only [hidx, if_true]
        omega
      have hrs : rs.length < k := by
        simpa using Nat.lt_of_succ_lt_succ hr
      simp only [lotterySelect, hpos, dif_pos,
        ih (remaining.eraseIdx (compute_selection_index r remaining.length)) rs
          hklen hrs]
      rfl

theorem lotterySelect_take :
    ∀ (k : Nat) (remaining : List LotteryEntry) (rnd : List Nat),
      lotterySelect remaining (rnd.take k) k = lotterySelect remaining rnd k := by
  intro k
  induction k with
  | zero =>
    intro remaining rnd
    rw [lotterySelect_zero, lotterySelect_zero]
  | succ k ih =>
    intro remaining rnd
    by_cases hpos : 0 < remaining.length
    · match rnd with
      | [] => rfl
      | r :: rs =>
        simp only [List.take_succ_cons, lotterySelect, hpos, dif_pos, ih]
    · simp [lotterySelect, hpos]

/-- C6: for the Lottery strategy with `total_allocations = k` and `k ≤ N`
eligible entries, allocation produces exactly `k` winners, each eligible
entry appears at most once among the winners (selected entries are removed
from the remaining pool), every winner comes from the eligible entry set, and
each draw consumes one distinct randomness output — exactly the first `k`
outputs are consumed, and fewer outputs than draws makes the allocation fail
(`InsufficientRandomness`, `none`). -/
theorem lottery_coverage (entries : List LotteryEntry) (rnd : List Nat)
    (k : Nat) :
    (k ≤ entries.length → k ≤ rnd.length →
        ∃ ws, lotterySelect entries rnd k = some ws ∧ ws.length = k ∧
          (∀ w ∈ ws, w ∈ entries) ∧ (entries.Nodup → ws.Nodup)) ∧
      (k ≤ entries.length → rnd.length < k →
        lotterySelect entries rnd k = none) ∧
      lotterySelect entries (rnd.take k) k = lotterySelect entries rnd k :=
  ⟨lotterySelect_success k entries rnd, lotterySelect_insufficient k entries rnd,
    lotterySelect_take k entries rnd⟩

theorem lottery_coverage_witness :
    (∃ ws, lotterySelect [⟨"A", 1, 10⟩, ⟨"B", 1, 20⟩, ⟨"C", 1, 30⟩] [7, 5] 2
        = some ws ∧ ws.length = 2 ∧
        (∀ w ∈ ws, w ∈ [⟨"A", 1, 10⟩, ⟨"B", 1, 20⟩, ⟨"C", 1, 30⟩]) ∧
        (([⟨"A", 1, 10⟩, ⟨"B", 1, 20⟩, ⟨"C", 1, 30⟩] :
            List LotteryEntry).Nodup → ws.Nodup)) ∧
      lotterySelect [⟨"A", 1, 10⟩, ⟨"B", 1, 20⟩, ⟨"C", 1, 30⟩] [7] 2 = none :=
  ⟨(lottery_coverage [⟨"A", 1, 10⟩, ⟨"B", 1, 20⟩, ⟨"C", 1, 30⟩] [7, 5] 2).1
      (by decide) (by decide),
    (lottery_coverage [⟨"A", 1, 10⟩, ⟨"B", 1, 20⟩, ⟨"C", 1, 30⟩] [7] 2).2.1
      (by decide) (by decide)⟩

/-- C7: for the FirstComeFirstServed strategy the winner set is the first
`total_allocations` entries of the pool ordered by `registered_at_sequence`
ascending with ties broken by lexical order of `participant_id` (the FCFS
order is sorted under that ordering and is a permutation of the entries, and
every winner precedes every non-winner in it), and the allocation consumes no
randomness output — the result is independent of the randomness supplied. -/
theorem fcfs_allocation_spec (entries : List LotteryEntry)
    (allowlist : List String) (k : Nat) (rnd rnd2 : List Nat) :
    allocate .FCFS entries allowlist rnd k
        = some ((entries.insertionSort fcfsLE).take k) ∧
      List.Sorted fcfsLE (fcfsOrder entries) ∧
      List.Perm (fcfsOrder entries) entries ∧
      (allocate_fcfs entries k).length = min k entries.length ∧
      (∀ w ∈ allocate_fcfs entries k, w ∈ entries) ∧
      (∀ w ∈ allocate_fcfs entries k, ∀ e ∈ entries,
        e ∉ allocate_fcfs entries k → fcfsLE w e) ∧
      allocate .FCFS entries allowlist rnd k
        = allocate .FCFS entries allowlist rnd2 k := by
  have hsorted : List.Sorted fcfsLE (fcfsOrder entries) :=
    List.sorted_insertionSort fcfsLE entries
  have hperm : List.Perm (fcfsOrder entries) entries :=
    List.perm_insertionSort fcfsLE entries
  refine ⟨rfl, hsorted, hperm, ?_, ?_, ?_, rfl⟩
  · simp [allocate_fcfs, List.length_take, hperm.length_eq]
  · intro w hw
    exact hperm.subset (List.take_subset k (fcfsOrder entries) hw)
  · intro w hw e he hne
    have heL : e ∈ fcfsOrder entries := hperm.symm.subset he
    have hsplit : e ∈ (fcfsOrder entries).take k ∨
        e ∈ (fcfsOrder entries).drop k := by
      rw [← List.take_append_drop k (fcfsOrder entries)] at heL
      exact List.mem_append.1 heL
    rcases hsplit with hin | hdrop
    · exact absurd hin hne
    · exact hsorted.rel_of_mem_take_of_mem_drop hw hdrop

theorem fcfs_allocation_spec_witness :
    allocate .FCFS [⟨"B", 1, 20⟩, ⟨"A", 1, 10⟩] [] [0] 1
        = some ((([⟨"B", 1, 20⟩, ⟨"A", 1, 10⟩] :
            List LotteryEntry).insertionSort fcfsLE).take 1) ∧
      List.Sorted fcfsLE (fcfsOrder [⟨"B", 1, 20⟩, ⟨"A", 1, 10⟩]) ∧
      List.Perm (fcfsOrder [⟨"B", 1, 20⟩, ⟨"A", 1, 10⟩])
        [⟨"B", 1, 20⟩, ⟨"A", 1, 10⟩] ∧
      (allocate_fcfs [⟨"B", 1, 20⟩, ⟨"A", 1, 10⟩] 1).length
        = min 1 ([⟨"B", 1, 20⟩, ⟨"A", 1, 10⟩] : List LotteryEntry).length ∧
      (∀ w ∈ allocate_fcfs [⟨"B", 1, 20⟩, ⟨"A", 1, 10⟩] 1,
        w ∈ [⟨"B", 1, 20⟩, ⟨"A", 1, 10⟩]) ∧
      (∀ w ∈ allocate_fcfs [⟨"B", 1, 20⟩, ⟨"A", 1, 10⟩] 1,
        ∀ e ∈ [⟨"B", 1, 20⟩, ⟨"A", 1, 10⟩],
        e ∉ allocate_fcfs [⟨"B", 1, 20⟩, ⟨"A", 1, 10⟩] 1 → fcfsLE w e) ∧
      allocate .FCFS [⟨"B", 1, 20⟩, ⟨"A", 1, 10⟩] [] [0] 1
        = allocate .FCFS [⟨"B", 1, 20⟩, ⟨"A", 1, 10⟩] [] [1] 1 :=
  fcfs_allocation_spec [⟨"B", 1, 20⟩, ⟨"A", 1, 10⟩] [] 1 [0] [1]

/-- C8: `verifyWebhookSignature` is a total predicate: for every (body,
signature) pair it returns a boolean — true exactly when Stripe event
construction succeeds — and any exception raised during construction is
caught and turned into `false`; it never throws. -/
theorem verifyWebhookSignature_total
    (constructEvent : String → String → String → Except String String)
    (secret body signature : String) :
    (verifyWebhookSignature constructEvent secret body signature = true ∨
        verifyWebhookSignature constructEvent secret body signature = false) ∧
      (∀ err, constructEvent body signature secret = .error err →
        verifyWebhookSignature constructEvent secret body signature = false) ∧
      (∀ ev, constructEvent body signature secret = .ok ev →
        verifyWebhookSignature constructEvent secret body signature = true) := by
  refine ⟨?_, ?_, ?_⟩
  · rcases Bool.eq_false_or_eq_true
      (verifyWebhookSignature constructEvent secret body signature) with h | h
    · exact Or.inl h
    · exact Or.inr h
  · intro err h
    simp [verifyWebhookSignature, h]
  · intro ev h
    simp [verifyWebhookSignature, h]

theorem verifyWebhookSignature_total_witness :
    verifyWebhookSignature (fun _ _ _ => .error "bad signature") "sec" "b" "s"
        = false ∧
      verifyWebhookSignature (fun _ _ _ => .ok "evt") "sec" "b" "s" = true :=
  ⟨(verifyWebhookSignature_total (fun _ _ _ => .error "bad signature")
      "sec" "b" "s").2.1 "bad signature" rfl,
    (verifyWebhookSignature_total (fun _ _ _ => .ok "evt")
      "sec" "b" "s").2.2 "evt" rfl⟩

/-- C9: `validateNonce` returns true only when the stored nonce for the
wallet address equals the supplied nonce, and a successful validation clears
the stored nonce, so repeating the same call with no intervening
`generateNonce` returns false — each issued nonce validates at most once. -/
theorem validateNonce_single_use (db : List User) (w n : String)
    (now now2 : Nat) :
    ((validateNonce db w n now).1 = true →
        ∃ u, db.find? (fun x => x.walletAddress == w) = some u ∧
          u.nonce = some n) ∧
      ((validateNonce db w n now).1 = true →
        (validateNonce (validateNonce db w n now).2 w n now2).1 = false) := by
  rcases hf : db.find? (fun x => x.walletAddress == w) with _ | user
  · constructor <;> intro h <;> simp [validateNonce, hf] at h
  · rcases hn : user.nonce with _ | stored
    · constructor <;> intro h <;> simp [validateNonce, hf, hn] at h
    · by_cases he : stored = ""
      · constructor <;> intro h <;> simp [validateNonce, hf, hn, he] at h
      · by_cases hm : stored = n
        · subst hm
          have hsnd : (validateNonce db w stored now).2
              = db.map (fun u =>
                  if u.id == user.id then
                    { u with nonce := none, lastLoginAt := some now }
                  else u) := by
            simp [validateNonce, hf, hn, he]
          refine ⟨fun _ => ⟨user, hf, hn⟩, fun _ => ?_⟩
          rw [hsnd]
          have hfind2 : (db.map (fun u =>
              if u.id == user.id then
                { u with nonce := none, lastLoginAt := some now }
              else u)).find? (fun x => x.walletAddress == w)
              = some { user with nonce := none, lastLoginAt := some now } := by
            rw [List.find?_map]
            have hpres : ((fun x : User => x.walletAddress == w) ∘ fun u : User =>
                if u.id == user.id then
                  { u with nonce := none, lastLoginAt := some now }
                else u) = fun u : User => u.walletAddress == w := by
              funext u
              by_cases hc : (u.id == user.id) = true
              · simp [Function.comp, hc]
              · simp [Function.comp, hc]
            rw [hpres, hf]
            simp
          unfold validateNonce
          rw [hfind2]
        · constructor <;> intro h <;> simp [validateNonce, hf, hn, he, hm] at h

theorem validateNonce_single_use_witness :
    (∃ u, ([⟨"u1", "w1", some "abc", none, [.attendee]⟩] :
          List User).find? (fun x => x.walletAddress == "w1") = some u ∧
        u.nonce = some "abc") ∧
      (validateNonce
          (validateNonce [⟨"u1", "w1", some "abc", none, [.attendee]⟩]
            "w1" "abc" 5).2 "w1" "abc" 6).1 = false :=
  ⟨(validateNonce_single_use [⟨"u1", "w1", some "abc", none, [.attendee]⟩]
      "w1" "abc" 5 6).1 (by decide),
    (validateNonce_single_use [⟨"u1", "w1", some "abc", none, [.attendee]⟩]
      "w1" "abc" 5 6).2 (by decide)⟩

/-- C10: `assignRole` is idempotent: a user already holding the role is
returned with the roles list unchanged (and nothing is saved), a second call
with the same (userId, role) returns exactly the result of the first call,
and a duplicate-free roles list stays duplicate-free, so no role ever
appears twice. -/
theorem assignRole_idempotent (db : List User) (uid : String) (r : UserRole)
    (u1 : User) (db1 : List User)
    (h : assignRole db uid r = .ok (u1, db1)) :
    assignRole db1 uid r = .ok (u1, db1) ∧
      (∀ u, db.find? (fun x => x.id == uid) = some u → r ∈ u.roles →
        u1 = u ∧ db1 = db) ∧
      (∀ u, db.find? (fun x => x.id == uid) = some u → u.roles.Nodup →
        u1.roles.Nodup) := by
  rcases hf : db.find? (fun x => x.id == uid) with _ | user
  · rw [assignRole, hf] at h
    exact absurd h (by simp)
  · have huid : (user.id == uid) = true :=
      List.find?_some (p := fun x : User => x.id == uid) hf
    by_cases hc : r ∈ user.roles
    · simp only [assignRole, hf] at h
      rw [if_pos hc] at h
      simp only [Except.ok.injEq, Prod.mk.injEq] at h
      obtain ⟨rfl, rfl⟩ := h
      refine ⟨?_, ?_, ?_⟩
      · simp only [assignRole, hf]
        rw [if_pos hc]
      · intro u hu _
        rw [hf] at hu
        simp only [Option.some.injEq] at hu
        exact ⟨hu, rfl⟩
      · intro u hu hnd
        rw [hf] at hu
        simp only [Option.some.injEq] at hu
        rw [← hu] at hnd
        exact hnd
    · simp only [assignRole, hf] at h
      rw [if_neg hc] at h
      simp only [Except.ok.injEq, Prod.mk.injEq] at h
      obtain ⟨rfl, rfl⟩ := h
      have hfind2 : (db.map (fun u =>
          if u.id == uid then { user with roles := user.roles ++ [r] }
          else u)).find? (fun x => x.id == uid)
          = some { user with roles := user.roles ++ [r] } := by
        rw [List.find?_map]
        have hpres : ((fun x : User => x.id == uid) ∘ fun u : User =>
            if u.id == uid then { user with roles := user.roles ++ [r] }
            else u) = fun u : User => u.id == uid := by
          funext u
          by_cases hcu : (u.id == uid) = true
          · simp [Function.comp, hcu, huid]
          · simp [Function.comp, hcu]
        rw [hpres, hf]
        have hmap : (fun u : User =>
            if u.id == uid then { user with roles := user.roles ++ [r] }
            else u) user = { user with roles := user.roles ++ [r] } :=
          if_pos huid
        exact congrArg some hmap
      refine ⟨?_, ?_, ?_⟩
      · simp only [assignRole, hfind2]
        rw [if_pos (by simp)]
      · intro u hu hr
        rw [hf] at hu
        simp only [Option.some.injEq] at hu
        rw [← hu] at hr
        exact absurd hr hc
      · intro u hu hnd
        rw [hf] at hu
        simp only [Option.some.injEq] at hu
        rw [← hu] at hnd
        simpa [List.nodup_append, hc] using hnd

theorem assignRole_idempotent_witness :
    assignRole
        [⟨"u1", "w1", none, none, [UserRole.attendee, UserRole.organizer]⟩]
        "u1" UserRole.organizer
      = .ok (⟨"u1", "w1", none, none, [UserRole.attendee, UserRole.organizer]⟩,
          [⟨"u1", "w1", none, none, [UserRole.attendee, UserRole.organizer]⟩]) ∧
      (∀ u, ([⟨"u1", "w1", none, none, [UserRole.attendee]⟩] :
          List User).find? (fun x => x.id == "u1") = some u →
        UserRole.organizer ∈ u.roles →
        (⟨"u1", "w1", none, none,
            [UserRole.attendee, UserRole.organizer]⟩ : User) = u ∧
          [(⟨"u1", "w1", none, none,
              [UserRole.attendee, UserRole.organizer]⟩ : User)]
            = [⟨"u1", "w1", none, none, [UserRole.attendee]⟩]) ∧
      (∀ u, ([⟨"u1", "w1", none, none, [UserRole.attendee]⟩] :
          List User).find? (fun x => x.id == "u1") = some u →
        u.roles.Nodup →
        (⟨"u1", "w1", none, none,
            [UserRole.attendee, UserRole.organizer]⟩ : User).roles.Nodup) :=
  assignRole_idempotent
    [⟨"u1", "w1", none, none, [UserRole.attendee]⟩]
    "u1" UserRole.organizer
    ⟨"u1", "w1", none, none, [UserRole.attendee, UserRole.organizer]⟩
    [⟨"u1", "w1", none, none, [UserRole.attendee, UserRole.organizer]⟩]
    rfl

end Gatherraa

